import Mathlib

/-!
Shallow embedding of the `Scan` container from `nmutils/core/Scan.py`
(repository nanomax-analysis-utils), together with the file-access helpers
used by `nmutils/core/contrast_stepscan.py`.

Modelling conventions:

* numpy arrays of scan positions and of per-position data are modelled as
  `List (List ℚ)`: a list of rows.  A dataset with a higher-dimensional
  trailing shape is represented with the trailing axes flattened into one
  row; this preserves the first-axis (per-position) structure and the
  per-cell arithmetic that the claims are about.
* machine floats are modelled as exact rationals.
* the `dict` of datasets is modelled as an insertion-ordered association
  list, as Python dicts preserve insertion order.
* methods that mutate `self` are modelled as functions returning the new
  `Scan`; methods that can raise return `Except`.  For `addData`, whose
  claims talk about the state at the moment an exception is raised, the
  error constructor also carries the scan state at raise time (in the
  source both `ValueError`s are raised before `self.data` or
  `self.positions` is touched).
* the metadata dictionaries of `Scan.__init__` (`dataTitles`,
  `dataDimLabels`, `dataAxes`, `positionDimLabels`) and the option
  attributes set by `_prepareData` are bookkeeping that never feeds back
  into `data` or `positions`; they are omitted from the state.
-/

namespace NMUtils

/-- A 2-D numpy array of rationals, as a list of rows. -/
abbrev Arr2 := List (List ℚ)

/-- Keys of a Python dict modelled as an association list (`dict.keys()`). -/
def dictKeys (d : List (String × Arr2)) : List String := d.map Prod.fst

/-- Dict lookup (`d[k]` returning `None` when absent). -/
def dictFind (d : List (String × Arr2)) (k : String) : Option Arr2 :=
  match d with
  | [] => none
  | (k2, v) :: rest => if k2 = k then some v else dictFind rest k

/-- Dict assignment `d[k] = v`: update in place if the key exists,
otherwise append (Python dicts keep insertion order). -/
def dictSet (d : List (String × Arr2)) (k : String) (v : Arr2) :
    List (String × Arr2) :=
  match d with
  | [] => [(k, v)]
  | (k2, v2) :: rest =>
    if k2 = k then (k2, v) :: rest else (k2, v2) :: dictSet rest k v

/-- The `Scan` container (`Scan.py`, `__init__`, lines 35-57): a dict of
datasets plus an optional positions array (`None` until first load). -/
structure Scan where
  data : List (String × Arr2)
  positions : Option Arr2
deriving DecidableEq

/-- `Scan.nDatasets` (line 59-61): `len(self.data)`. -/
def Scan.nDatasets (s : Scan) : Nat := s.data.length

/-- `Scan.nPositions` (line 63-65): `None if positions is None else positions.shape[0]`. -/
def Scan.nPositions (s : Scan) : Option Nat := s.positions.map List.length

/-- `Scan.nDimensions` (line 67-69): `None if positions is None else positions.shape[1]`. -/
def Scan.nDimensions (s : Scan) : Option Nat :=
  s.positions.map fun ps => (ps.headD []).length

/-- One column mean of a 2-D array: the `j`-th entry of `np.mean(d, axis=0)`. -/
def colMean (d : Arr2) (j : Nat) : ℚ :=
  (d.map fun r => r.getD j 0).sum / (d.length : ℚ)

/-- `np.mean(d, axis=0)`: the per-cell average over the first axis.  The
same array is what `np.pad(d, ((0, m),) + ((0, 0),)*(ndim-1), mode="mean")`
uses for every padded row. -/
def meanAxis0 (d : Arr2) : List ℚ :=
  match d with
  | [] => []
  | r :: _ => (List.range r.length).map fun j => colMean d j

/-- numpy broadcast compatibility of two axis lengths. -/
def bcastOK (m n : Nat) : Bool := m == n || m == 1 || n == 1

/-- Index into an axis of length `n` under broadcasting: an axis of
length 1 is indexed at 0. -/
def bIdx (n i : Nat) : Nat := if n = 1 then 0 else i

/-- Element access `a[i, j]` (out-of-range reads return 0; all uses are
in range under the hypotheses of the theorems below). -/
def cell (a : Arr2) (i j : Nat) : ℚ := (a.getD i []).getD j 0

/-- `np.all(a == b)` for two 2-D arrays: `==` broadcasts the two shapes
when compatible and compares cell-wise; on incompatible shapes numpy
returns the scalar `False` (so `np.all` is `False`). -/
def npAllEq (a b : Arr2) : Bool :=
  let n1 := a.length
  let d1 := (a.headD []).length
  let n2 := b.length
  let d2 := (b.headD []).length
  if bcastOK n1 n2 && bcastOK d1 d2 then
    (List.range (max n1 n2)).all fun i =>
      (List.range (max d1 d2)).all fun j =>
        cell a (bIdx n1 i) (bIdx d1 j) == cell b (bIdx n2 i) (bIdx d2 j)
  else false

/-- The dataset name used by `addData` (lines 181-182): a falsy `name`
is replaced by `"data%u" % nDatasets`. -/
def addDataName (s : Scan) (name : String) : String :=
  if name = "" then "data" ++ toString s.nDatasets else name

/-- Lines 216-221 of `addData`: if frames are missing, pad the first axis
at the end with rows equal to the per-cell mean (numpy pad mode `mean`). -/
def padToPositions (d : Arr2) (P : Nat) : Arr2 :=
  if d.length < P then d ++ List.replicate (P - d.length) (meanAxis0 d) else d

/-- Lines 223-227 of `addData`: if too many frames were returned, keep
only the first `nPositions` rows (`data[:self.nPositions]`). -/
def truncToPositions (d : Arr2) (P : Nat) : Arr2 :=
  if d.length > P then d.take P else d

/-- `Scan.addData` (lines 171-229).  The results of the subclass hooks
`_readPositions()` and `_readData(name)` are passed in as the oracle
arguments `readPositions` and `readData`; `_prepareData` only sets option
attributes, which are outside the modelled state.  On the no-datasets
branch the positions are (re)read and stored; otherwise the two
consistency checks run first, and an error carries the scan state at
raise time (nothing modelled has been mutated yet at either raise). -/
def Scan.addData (s : Scan) (name0 : String) (readPositions : Arr2)
    (readData : Arr2) : Except (String × Scan) Scan :=
  let name := addDataName s name0
  if s.nDatasets = 0 then
    -- `self.positions = self._readPositions()`
    let P := readPositions.length
    let d := truncToPositions (padToPositions readData P) P
    .ok { data := dictSet s.data name d, positions := some readPositions }
  else
    if name ∈ dictKeys s.data then
      .error ("Dataset " ++ name ++ " already exists!", s)
    else
      match s.positions with
      | none =>
        -- `None == array` is falsy in numpy, so the check below raises.
        .error ("Positions of new dataset are inconsistent with previously loaded positions!", s)
      | some ps =>
        if npAllEq ps readPositions then
          let P := ps.length
          let d := truncToPositions (padToPositions readData P) P
          .ok { data := dictSet s.data name d, positions := some ps }
        else
          .error ("Positions of new dataset are inconsistent with previously loaded positions!", s)

/-- `Scan.meanData` (lines 240-248): scan-average of a dataset; a falsy
name selects the unique dataset or raises `ValueError`.  A missing
explicit name raises `KeyError` in Python (`self.data[name]`). -/
def Scan.meanData (s : Scan) (name0 : String) : Except String (List ℚ) :=
  if name0 = "" then
    if s.nDatasets = 1 then
      match dictFind s.data ((dictKeys s.data).getD 0 "") with
      | some d => .ok (meanAxis0 d)
      | none => .error "KeyError"
    else
      .error "There is more than one dataset to choose from. Please specify!"
  else
    match dictFind s.data name0 with
    | some d => .ok (meanAxis0 d)
    | none => .error "KeyError"

/-- Set equality of two key lists, as Python `dict.keys() == dict.keys()`. -/
def keysSetEq (a b : List String) : Bool := a.all b.contains && b.all a.contains

/-- Whether `np.concatenate((a, b), axis=0)` succeeds: all dimensions
except the concatenation axis must match, which in this flattened
embedding means equal row widths.  An empty array (whose explicit
trailing shape numpy keeps but a list of rows cannot represent) is
treated as compatible with anything. -/
def concatCompatible (a b : Arr2) : Bool :=
  a.isEmpty || b.isEmpty || (a.headD []).length == (b.headD []).length

/-- The dataset loop of `Scan.merge` (lines 283-284): walk the datasets
in insertion order, replacing each with the axis-0 concatenation with the
same key of the other scan.  The `ValueError` that `np.concatenate`
raises on a trailing-shape mismatch aborts the loop and carries the
partially updated dict: keys before the failing one already
concatenated, the failing key and later ones untouched. -/
def mergeDataLoop (odata : List (String × Arr2)) :
    List (String × Arr2) →
      Except (String × List (String × Arr2)) (List (String × Arr2))
  | [] => .ok []
  | (k, v) :: rest =>
    if concatCompatible v ((dictFind odata k).getD []) then
      match mergeDataLoop odata rest with
      | .ok rest2 => .ok ((k, v ++ (dictFind odata k).getD []) :: rest2)
      | .error (msg, rest2) =>
        .error (msg, (k, v ++ (dictFind odata k).getD []) :: rest2)
    else
      .error ("ValueError: all the input array dimensions except for the concatenation axis must match exactly",
        (k, v) :: rest)

/-- `Scan.merge` (lines 276-284): assert equal key sets, reassign
`self.positions` to the axis-0 concatenation (line 282), then concatenate
every dataset in turn (lines 283-284).  The assert and a `TypeError` from
concatenating `None` positions fire before any mutation, but a
trailing-shape `ValueError` in the dataset loop fires after
`self.positions` was already reassigned — so, as in `addData`, an error
carries the scan state at raise time. -/
def Scan.merge (s o : Scan) : Except (String × Scan) Scan :=
  if keysSetEq (dictKeys s.data) (dictKeys o.data) then
    match s.positions, o.positions with
    | some ps, some po =>
      if concatCompatible ps po then
        match mergeDataLoop o.data s.data with
        | .ok d2 => .ok { data := d2, positions := some (ps ++ po) }
        | .error (msg, d2) =>
          .error (msg, { data := d2, positions := some (ps ++ po) })
      else
        .error ("ValueError: all the input array dimensions except for the concatenation axis must match exactly", s)
    | _, _ => .error ("TypeError: cannot concatenate missing positions", s)
  else
    .error ("AssertionError: the scans must have the same datasets", s)

/-- The per-position filter of `Scan.subset` (lines 303-309): a position
is kept when no dimension falls outside `[posRange[0,dim], posRange[1,dim]]`. -/
def rowInRange (lo hi row : List ℚ) (D : Nat) : Bool :=
  (List.range D).all fun dim =>
    !(decide (row.getD dim 0 < lo.getD dim 0) || decide (row.getD dim 0 > hi.getD dim 0))

/-- `np.sum((row - center)**2)`: squared distance used by the `closest`
branch of `subset` (lines 318-320). -/
def sqDist (row center : List ℚ) : ℚ :=
  ((row.zip center).map fun p => (p.1 - p.2) ^ 2).sum

/-- Helper for `np.argmin`: scan the remaining values, keeping the index
of the strictly smallest value seen so far (so ties keep the first). -/
def argminAux : List ℚ → Nat → Nat → ℚ → Nat
  | [], _, best, _ => best
  | v :: rest, i, best, bv =>
    if v < bv then argminAux rest (i + 1) i v else argminAux rest (i + 1) best bv

/-- `np.argmin`: index of the first minimal value (0 on an empty list,
where numpy raises instead; the theorems below assume nonempty input). -/
def argminQ : List ℚ → Nat
  | [] => 0
  | v :: rest => argminAux rest 1 0 v

/-- `Scan.subset` (lines 286-330).  Walks all positions in order, keeping
those within range together with the co-indexed rows of every dataset; if
nothing is in range and `closest` is set, falls back to the single
position closest to the centre of the range.  Python would raise
`TypeError` on a scan whose positions were never loaded; the claims only
use scans with loaded positions. -/
def Scan.subset (s : Scan) (posRange : Arr2) (closest : Bool) : Scan :=
  let ps := s.positions.getD []
  let D := (ps.headD []).length
  let lo := posRange.getD 0 []
  let hi := posRange.getD 1 []
  let kept := (List.range ps.length).filter fun i => rowInRange lo hi (ps.getD i []) D
  let center := meanAxis0 posRange
  let kept2 :=
    if kept = [] ∧ closest then [argminQ (ps.map fun row => sqDist row center)]
    else kept
  { data := s.data.map fun p => (p.1, kept2.map fun i => p.2.getD i []),
    positions := some (kept2.map fun i => ps.getD i []) }

/-- The co-indexing invariant of the spec: every dataset has exactly one
row per scan position. -/
def coIndexed (s : Scan) : Prop :=
  ∀ p ∈ s.data, some p.2.length = s.nPositions

instance {ε α : Type} [DecidableEq ε] [DecidableEq α] :
    DecidableEq (Except ε α) := fun x y =>
  match x, y with
  | .ok a, .ok b =>
    if h : a = b then isTrue (by rw [h]) else isFalse (fun hc => h (Except.ok.inj hc))
  | .error a, .error b =>
    if h : a = b then isTrue (by rw [h]) else isFalse (fun hc => h (Except.error.inj hc))
  | .ok _, .error _ => isFalse (fun hc => Except.noConfusion hc)
  | .error _, .ok _ => isFalse (fun hc => Except.noConfusion hc)

/-- An open HDF5 handle: a partial map from dataset paths to stored
values, plus the `filename` attribute used in error messages.  A path at
which `entries` is `none` is one whose lookup raises `KeyError`. -/
structure H5File (α : Type) where
  entries : String → Option α
  filename : String

/-- A stored HDF5 string value: `fp[path][()]` yields either `bytes` or
`str` in Python. -/
inductive H5Str
  | bytes (s : String)
  | str (s : String)

/-- `Scan._safe_get_str` (lines 136-147): read `fp[path][()]`, decode
`bytes` as UTF-8, and turn a `KeyError` into a `NoDataException` whose
message names the path and the filename. -/
def _safe_get_str (fp : H5File H5Str) (path : String) : Except String String :=
  match fp.entries path with
  | some (.bytes s) => .ok s
  | some (.str s) => .ok s
  | none => .error ("Dataset " ++ path ++ " not found in " ++ fp.filename)

/-- `Scan._safe_get_array` (lines 149-158): `np.array(fp[path])` with the
same `KeyError` handling. -/
def _safe_get_array {α : Type} (fp : H5File α) (path : String) : Except String α :=
  match fp.entries path with
  | some a => .ok a
  | none => .error ("Dataset " ++ path ++ " not found in " ++ fp.filename)

/-- `Scan._safe_get_dataset` (lines 160-169): `fp[path]` with the same
`KeyError` handling. -/
def _safe_get_dataset {α : Type} (fp : H5File α) (path : String) : Except String α :=
  match fp.entries path with
  | some a => .ok a
  | none => .error ("Dataset " ++ path ++ " not found in " ++ fp.filename)

/-- The sanity check at the end of `contrast_stepscan._prepareData`
(lines 115-120): try to open the main scan file and turn an `OSError`
into a `NoDataException` naming the file.  Whether `h5py.File` succeeds
is passed in as the oracle `canOpen`. -/
def contrastStepscanFileCheck (canOpen : Bool) (fileName : String) :
    Except String Unit :=
  if canOpen then .ok ()
  else .error ("Could not find or open the file " ++ fileName)

/-- `np.abs(np.diff(v))`: absolute steps between consecutive entries. -/
def absDiff (v : List ℚ) : List ℚ :=
  (v.zip v.tail).map fun p => |p.2 - p.1|

/-- `np.diff` on integer arrays. -/
def intDiff (v : List ℤ) : List ℤ :=
  (v.zip v.tail).map fun p => p.2 - p.1

/-- `np.median`: middle element of the sorted list, or the mean of the
two middle elements for even length.  numpy yields NaN on an empty array;
the model returns 0, and the comparison NaN > NaN in
`_shapeFromPositions2D` is falsy exactly as 0 > 0 is. -/
def median (v : List ℚ) : ℚ :=
  let s := List.insertionSort (· ≤ ·) v
  if v.length = 0 then 0
  else if v.length % 2 = 1 then s.getD (v.length / 2) 0
  else (s.getD (v.length / 2 - 1) 0 + s.getD (v.length / 2) 0) / 2

/-- `np.max` (the model returns the head for an empty list, where numpy
raises; all uses are on nonempty axes). -/
def maxQ (v : List ℚ) : ℚ := v.foldl max (v.headD 0)

/-- `np.min`. -/
def minQ (v : List ℚ) : ℚ := v.foldl min (v.headD 0)

/-- `np.where(v > t)`: the indices, in increasing order, whose entry
strictly exceeds `t`. -/
def npWhereGt (v : List ℚ) (t : ℚ) : List Nat :=
  (List.range v.length).filter fun i => decide (v.getD i 0 > t)

/-- `Scan._shapeFromPositions2D` (lines 501-529): pick the fast axis by
comparing medians of absolute steps, detect line breaks as steps larger
than half the fast-axis range, difference the break indices against an
inserted -1 (`np.insert` / `np.diff`), average them with
`np.mean(dim, dtype=np.int)` (sum divided by count, truncated — exact
for these nonnegative values), and divide the position count by the fast
dimension (`//`).  The model returns 0 where Python would raise
`ZeroDivisionError` or fail on an empty mean; the theorems assume at
least one detected break, which rules those out. -/
def _shapeFromPositions2D (x y : List ℚ) : (ℤ × ℤ) × String :=
  let adx := absDiff x
  let ady := absDiff y
  let fastIsX := median adx > median ady
  let fa := if fastIsX then x else y
  let fad := if fastIsX then adx else ady
  let lbl := if fastIsX then "x" else "y"
  let total := maxQ fa - minQ fa
  let idxBreaks := npWhereGt fad (total / 2)
  let dim := intDiff ((-1 : ℤ) :: idxBreaks.map (Nat.cast : ℕ → ℤ))
  let fastDim : ℤ := dim.sum / (dim.length : ℤ)
  let slowDim : ℤ := (fa.length : ℤ) / fastDim
  ((slowDim, fastDim), lbl)

/-- Claim-side definition, following the words of claim C5: the indices
at which the fast-axis absolute step exceeds half of the fast-axis total
range (the fast axis being x exactly when the median absolute step of x
exceeds that of y). -/
def claimBreaks (x y : List ℚ) : List Nat :=
  if median (absDiff x) > median (absDiff y) then
    npWhereGt (absDiff x) ((maxQ x - minQ x) / 2)
  else
    npWhereGt (absDiff y) ((maxQ y - minQ y) / 2)

/-- Lengths of the segments ending at each break after the first:
distance from the previous break. -/
def segLensFrom : Nat → List Nat → List Nat
  | _, [] => []
  | prev, b :: bs => (b - prev) :: segLensFrom b bs

/-- Claim-side definition: the lengths of the scan-line segments ending
at each detected break (the first segment runs from position 0 to the
first break inclusive). -/
def segLens (breaks : List Nat) : List Nat :=
  match breaks with
  | [] => []
  | b :: bs => (b + 1) :: segLensFrom b bs

/-- Claim-side definition: the integer mean of the segment lengths. -/
def claimFastAxisDim (breaks : List Nat) : Nat :=
  (segLens breaks).sum / (segLens breaks).length

/-- `np.fliplr`: reverse every row. -/
def fliplr (a : Arr2) : Arr2 := a.map List.reverse

/-- `np.flipud`: reverse the row order. -/
def flipud (a : Arr2) : Arr2 := a.reverse

/-- The triple of arrays (x, y, z) returned by `interpolatedMap`. -/
abbrev Grid3 := Arr2 × Arr2 × Arr2

/-- Apply one array operation to each component of an (x, y, z) triple. -/
def mapGrid3 (f : Arr2 → Arr2) (g : Grid3) : Grid3 := (f g.1, f g.2.1, f g.2.2)

/-- Lines 368-384 of `interpolatedMap`: the origin-dependent flips,
applied identically to x, y and z after the grid has been computed. -/
def applyOrigin (origin : String) (g : Grid3) : Grid3 :=
  if origin = "ll" then mapGrid3 fliplr g
  else if origin = "ur" then mapGrid3 flipud g
  else if origin = "ul" then mapGrid3 fliplr (mapGrid3 flipud g)
  else g

/-- `Scan.interpolatedMap` (lines 332-385): assert a 2-dimensional scan,
then compute a regular grid and `griddata` interpolation, then flip
according to `origin`.  The grid construction uses floating-point
`np.mgrid` and the external `scipy` interpolator; in the source it does
not depend on `origin`, so it is abstracted here as the argument `grid`
(the value the source has computed by line 366), and the origin handling
is modelled exactly. -/
def Scan.interpolatedMap (s : Scan) (grid : Grid3) (origin : String) :
    Except String Grid3 :=
  if s.nDimensions = some 2 then .ok (applyOrigin origin grid)
  else .error "AssertionError: nDimensions == 2"

/-- Observable file-system effects of `Scan.export`. -/
inductive ExportEvent
  | fileCreated
  | positionsWritten
  | datasetsWritten
deriving DecidableEq, Repr

/-- `Scan.export` (lines 387-460), modelled up to its decision points:
the two asserts (lines 403 and 406) run before `h5py.File(filepath, "w-")`
creates the output file (line 409); with `method="reshape"` and no
explicit shape, the grid shape is inferred from the two position columns
and `Exception` is raised when its product differs from `nPositions`
(lines 423-427).  The actual writing of positions and datasets is beyond
the decision points the claims concern and is summarised as events. -/
def Scan.exportH5 (s : Scan) (method : String) (shape : Option (Nat × Nat)) :
    List ExportEvent × Option String :=
  if ¬ (s.nDimensions = some 1 ∨ s.nDimensions = some 2) then
    ([], some "AssertionError: nDimensions in (1, 2)")
  else if ¬ (method = "reshape" ∨ method = "resample" ∨ method = "none") then
    ([], some "AssertionError: unknown method")
  else
    let ps := s.positions.getD []
    if method = "reshape" ∧ shape = none then
      let inferred := (_shapeFromPositions2D (ps.map fun r => r.getD 0 0)
        (ps.map fun r => r.getD 1 0)).1
      if inferred.1 * inferred.2 ≠ (ps.length : ℤ) then
        ([ExportEvent.fileCreated],
         some "Something went really wrong when trying to reshape the scan grid")
      else
        ([ExportEvent.fileCreated, ExportEvent.positionsWritten,
          ExportEvent.datasetsWritten], none)
    else
      ([ExportEvent.fileCreated, ExportEvent.positionsWritten,
        ExportEvent.datasetsWritten], none)

/-- `maxChunkSz` of `_calcChunkSize` (line 466): `1 << 22` bytes. -/
def maxChunkSz : Nat := 2 ^ 22

/-- `Scan._calcChunkSize` (lines 462-499), verbatim recursion: chunk on
the last dimension when a single row of cells already exceeds 4 MiB
(`int(maxChunkSz / dsize)` is an exact floor here, since for
`dsize ≤ 2^22` the float division cannot round up past an integer);
otherwise recurse on the leading dimensions with the row byte size, and
fall back to chunking everything or not chunking at all. -/
def _calcChunkSize : List Nat → Nat → Option (List Nat)
  | [], _ => none
  | [n], dsize =>
    if dsize * n ≤ maxChunkSz then none else some [maxChunkSz / dsize]
  | a :: b :: rest, dsize =>
    match _calcChunkSize [(a :: b :: rest).getLastD 0] dsize with
    | some chunk => some (List.replicate (rest.length + 1) 1 ++ chunk)
    | none =>
      match _calcChunkSize (a :: b :: rest).dropLast
          ((a :: b :: rest).getLastD 0 * dsize) with
      | some chunk => some (chunk ++ [(a :: b :: rest).getLastD 0])
      | none =>
        if dsize * (a :: b :: rest).prod > maxChunkSz then some (a :: b :: rest)
        else none
termination_by shape _ => shape.length
decreasing_by
  · simp
  · simp [List.length_dropLast]

/-- Instrumentation of `_calcChunkSize`: true exactly when some level of
the recursion reaches the final chunk-everything branch that returns the
full shape (line 497). -/
def _calcChunkHitsFull : List Nat → Nat → Bool
  | [], _ => false
  | [_], _ => false
  | a :: b :: rest, dsize =>
    match _calcChunkSize [(a :: b :: rest).getLastD 0] dsize with
    | some _ => false
    | none =>
      _calcChunkHitsFull (a :: b :: rest).dropLast
          ((a :: b :: rest).getLastD 0 * dsize) ||
      (match _calcChunkSize (a :: b :: rest).dropLast
          ((a :: b :: rest).getLastD 0 * dsize) with
       | some _ => false
       | none => decide (dsize * (a :: b :: rest).prod > maxChunkSz))
termination_by shape _ => shape.length
decreasing_by
  · simp [List.length_dropLast]

/-! ## Helper lemmas -/

theorem padTrunc_length (d : Arr2) (P : Nat) :
    (truncToPositions (padToPositions d P) P).length = P := by
  unfold padToPositions
  by_cases h : d.length < P
  · rw [if_pos h]
    have hlen : (d ++ List.replicate (P - d.length) (meanAxis0 d)).length = P := by
      simp
      omega
    unfold truncToPositions
    simp [hlen]
  · rw [if_neg h]
    unfold truncToPositions
    by_cases h2 : d.length > P
    · rw [if_pos h2]
      simp
      omega
    · rw [if_neg h2]
      omega

theorem dictSet_mem {d : List (String × Arr2)} {k : String} {v : Arr2}
    {p : String × Arr2} (h : p ∈ dictSet d k v) : p ∈ d ∨ p = (k, v) := by
  induction d with
  | nil => simpa [dictSet] using h
  | cons q rest ih =>
    unfold dictSet at h
    by_cases hk : q.1 = k
    · simp [hk] at h
      rcases h with h | h
      · right
        simp [h, Prod.ext_iff, hk]
      · left
        simp [h]
    · simp [hk] at h
      rcases h with h | h
      · left
        simp [h]
      · rcases ih h with h2 | h2
        · left
          simp [h2]
        · right
          exact h2

theorem dictFind_dictSet_self (d : List (String × Arr2)) (k : String) (v : Arr2) :
    dictFind (dictSet d k v) k = some v := by
  induction d with
  | nil => simp [dictSet, dictFind]
  | cons q rest ih =>
    unfold dictSet
    by_cases hk : q.1 = k
    · simp [dictFind, hk]
    · simp [dictFind, hk, ih]

theorem dictKeys_mem_find {d : List (String × Arr2)} {k : String}
    (h : k ∈ dictKeys d) : ∃ v, dictFind d k = some v ∧ (k, v) ∈ d := by
  induction d with
  | nil => simp [dictKeys] at h
  | cons q rest ih =>
    have hcons : k = q.1 ∨ k ∈ dictKeys rest := by
      have heq : dictKeys (q :: rest) = q.1 :: dictKeys rest := rfl
      rw [heq] at h
      exact List.mem_cons.mp h
    by_cases hk : q.1 = k
    · refine ⟨q.2, ?_, ?_⟩
      · simp [dictFind, hk]
      · have heq : (k, q.2) = q := by
          cases q
          simp_all
        rw [heq]
        exact List.mem_cons_self _ _
    · have hmem : k ∈ dictKeys rest := by
        rcases hcons with h1 | h1
        · exact absurd h1.symm hk
        · exact h1
      rcases ih hmem with ⟨v, hv, hvm⟩
      exact ⟨v, by simp [dictFind, hk, hv], by simp [hvm]⟩

theorem keysSetEq_mem {a b : List String} (h : keysSetEq a b = true) {k : String}
    (hk : k ∈ a) : k ∈ b := by
  unfold keysSetEq at h
  simp only [Bool.and_eq_true, List.all_eq_true] at h
  have := h.1 k hk
  simpa [List.contains, List.elem_iff] using this

theorem padTrunc_lt {d : Arr2} {P : Nat} (h : d.length < P) :
    truncToPositions (padToPositions d P) P =
      d ++ List.replicate (P - d.length) (meanAxis0 d) := by
  unfold padToPositions
  rw [if_pos h]
  have hlen : (d ++ List.replicate (P - d.length) (meanAxis0 d)).length = P := by
    simp
    omega
  unfold truncToPositions
  simp [hlen]

theorem padTrunc_gt {d : Arr2} {P : Nat} (h : d.length > P) :
    truncToPositions (padToPositions d P) P = d.take P := by
  unfold padToPositions
  rw [if_neg (by omega)]
  unfold truncToPositions
  rw [if_pos h]

theorem padTrunc_eq {d : Arr2} {P : Nat} (h : d.length = P) :
    truncToPositions (padToPositions d P) P = d := by
  unfold padToPositions
  rw [if_neg (by omega)]
  unfold truncToPositions
  rw [if_neg (by omega)]

theorem bIdx_of_lt {n i : Nat} (h : i < n) : bIdx n i = i := by
  unfold bIdx
  split
  · omega
  · rfl

theorem getD_of_lt {α : Type} (l : List α) (d : α) {i : Nat} (h : i < l.length) :
    l.getD i d = l[i] := by
  simp [List.getD_eq_getElem?_getD, List.getElem?_eq_getElem h]

/-- For two rectangular arrays of the same shape with at least one row,
`npAllEq` is exactly cell-wise equality. -/
theorem npAllEq_same_shape {a b : Arr2} {n D : Nat} (hn : 0 < n)
    (ha : a.length = n) (hb : b.length = n)
    (haR : ∀ r ∈ a, r.length = D) (hbR : ∀ r ∈ b, r.length = D) :
    npAllEq a b = true ↔ ∀ i < n, ∀ j < D, cell a i j = cell b i j := by
  have haH : (a.headD []).length = D := by
    cases a with
    | nil =>
      simp only [List.length_nil] at ha
      exact (by omega : False).elim
    | cons r rest => exact haR r (by simp)
  have hbH : (b.headD []).length = D := by
    cases b with
    | nil =>
      simp only [List.length_nil] at hb
      exact (by omega : False).elim
    | cons r rest => exact hbR r (by simp)
  unfold npAllEq
  simp only [ha, hb, haH, hbH]
  rw [if_pos (by simp [bcastOK])]
  simp only [List.all_eq_true, List.mem_range, beq_iff_eq, max_self]
  constructor
  · intro h i hi j hj
    have := h i hi j hj
    rwa [bIdx_of_lt hi, bIdx_of_lt hj] at this
  · intro h i hi j hj
    rw [bIdx_of_lt hi, bIdx_of_lt hj]
    exact h i hi j hj

/-- Two rectangular arrays of the same shape with equal cells are equal. -/
theorem rect_cell_ext {a b : Arr2} {n D : Nat}
    (ha : a.length = n) (hb : b.length = n)
    (haR : ∀ r ∈ a, r.length = D) (hbR : ∀ r ∈ b, r.length = D)
    (h : ∀ i < n, ∀ j < D, cell a i j = cell b i j) : a = b := by
  apply List.ext_getElem (by omega)
  intro i h1 h2
  have hiR : a[i].length = D := haR _ (List.getElem_mem h1)
  have hiR2 : b[i].length = D := hbR _ (List.getElem_mem h2)
  apply List.ext_getElem (by omega)
  intro j hj1 hj2
  have hc := h i (by omega) j (by omega)
  unfold cell at hc
  rw [getD_of_lt a [] h1, getD_of_lt b [] h2] at hc
  rwa [getD_of_lt _ _ (by omega), getD_of_lt _ _ (by omega)] at hc

/-! ## Claim C1: the co-indexing invariant -/

theorem mergeDataLoop_ok (odata : List (String × Arr2)) :
    ∀ (ddata d2 : List (String × Arr2)), mergeDataLoop odata ddata = .ok d2 →
      ∀ p ∈ d2, ∃ q ∈ ddata, p = (q.1, q.2 ++ (dictFind odata q.1).getD []) := by
  intro ddata
  induction ddata with
  | nil =>
    intro d2 h p hp
    simp only [mergeDataLoop, Except.ok.injEq] at h
    subst h
    simp at hp
  | cons q rest ih =>
    obtain ⟨k, v⟩ := q
    intro d2 h p hp
    unfold mergeDataLoop at h
    by_cases hc : concatCompatible v ((dictFind odata k).getD []) = true
    · rw [if_pos hc] at h
      split at h
      · rename_i rest2 hrest
        simp only [Except.ok.injEq] at h
        subst h
        rcases List.mem_cons.mp hp with hhead | htail
        · exact ⟨(k, v), by simp, by rw [hhead]⟩
        · rcases ih rest2 hrest p htail with ⟨q2, hq2, hpq2⟩
          exact ⟨q2, by simp [hq2], hpq2⟩
      · exact absurd h (by simp)
    · rw [if_neg hc] at h
      exact absurd h (by simp)

/-- Counterexample to C1 as stated.  Two co-indexed scans with the same
single dataset key but different trailing shapes (rows of width 5 versus
width 7): `merge` reassigns `self.positions` to the concatenation
(line 282) before the per-dataset `np.concatenate` (line 284) raises
`ValueError` on the trailing-shape mismatch, leaving a scan with two
positions but a one-row dataset — the co-indexing invariant is broken
under exactly the hypotheses of the claim, so `merge` does not always
"produce/leave a Scan that still satisfies" it. -/
theorem merge_coIndexed_counterexample_C1 :
    coIndexed (⟨[("a", [[1, 2, 3, 4, 5]])], some [[0, 0]]⟩ : Scan) ∧
    coIndexed (⟨[("a", [[1, 2, 3, 4, 5, 6, 7]])], some [[1, 1]]⟩ : Scan) ∧
    keysSetEq (dictKeys [("a", [[1, 2, 3, 4, 5]])])
      (dictKeys [("a", [[1, 2, 3, 4, 5, 6, 7]])]) = true ∧
    (⟨[("a", [[1, 2, 3, 4, 5]])], some [[0, 0]]⟩ : Scan).merge
        ⟨[("a", [[1, 2, 3, 4, 5, 6, 7]])], some [[1, 1]]⟩ =
      .error ("ValueError: all the input array dimensions except for the concatenation axis must match exactly",
        ⟨[("a", [[1, 2, 3, 4, 5]])], some [[0, 0], [1, 1]]⟩) ∧
    ¬ coIndexed (⟨[("a", [[1, 2, 3, 4, 5]])], some [[0, 0], [1, 1]]⟩ : Scan) := by
  refine ⟨?_, ?_, by decide, by decide, ?_⟩
  · unfold coIndexed
    decide
  · unfold coIndexed
    decide
  · unfold coIndexed
    decide

/-- C1 (amended): for every Scan whose datasets are each co-indexed with
its positions, `addData` (on success) and `subset` produce a Scan in
which every dataset again has exactly one row per position, and `merge`
— given the merged-in Scan also satisfies the invariant and has the same
dataset keys — leaves such a Scan whenever it returns normally.  (When a
dataset trailing shape differs between the two scans, `merge` instead
raises `ValueError` after `self.positions` was already reassigned and
leaves the invariant broken, as the counterexample shows.) -/
theorem scan_coIndexed_preserved (s : Scan) (hs : coIndexed s) :
    (∀ name rp rd r, s.addData name rp rd = .ok r → coIndexed r) ∧
    (∀ o r, coIndexed o → s.merge o = .ok r → coIndexed r) ∧
    (∀ posRange closest, coIndexed (s.subset posRange closest)) := by
  refine ⟨?_, ?_, ?_⟩
  · intro name rp rd r h
    unfold Scan.addData at h
    by_cases h0 : s.nDatasets = 0
    · simp only [h0, if_true, if_pos, Except.ok.injEq] at h
      subst h
      intro p hp
      have hdata : s.data = [] := List.length_eq_zero.mp h0
      rw [hdata] at hp
      simp [dictSet] at hp
      simp [hp, padTrunc_length, Scan.nPositions]
    · simp only [h0, if_false] at h
      split at h
      · exact absurd h (by simp)
      · split at h
        · exact absurd h (by simp)
        · rename_i hps
          split at h
          · simp only [Except.ok.injEq] at h
            subst h
            intro p hp
            rcases dictSet_mem hp with hmem | hnew
            · have := hs p hmem
              rw [Scan.nPositions, hps] at this
              simpa [Scan.nPositions] using this
            · simp [hnew, padTrunc_length, Scan.nPositions]
          · exact absurd h (by simp)
  · intro o r ho h
    unfold Scan.merge at h
    split at h
    · rename_i hkeys
      split at h
      · rename_i ps po hps hpo
        split at h
        · split at h
          · rename_i d2 hloop
            simp only [Except.ok.injEq] at h
            subst h
            intro p hp
            rcases mergeDataLoop_ok o.data s.data d2 hloop p hp with ⟨q, hq, hpq⟩
            have hkq : q.1 ∈ dictKeys o.data :=
              keysSetEq_mem hkeys (List.mem_map_of_mem Prod.fst hq)
            rcases dictKeys_mem_find hkq with ⟨v, hv, hvm⟩
            have h1 : q.2.length = ps.length := by
              have := hs q hq
              rw [Scan.nPositions, hps] at this
              simpa using this
            have h2 : v.length = po.length := by
              have := ho (q.1, v) hvm
              rw [Scan.nPositions, hpo] at this
              simpa using this
            subst hpq
            simp [Scan.nPositions, hv, h1, h2]
          · exact absurd h (by simp)
        · exact absurd h (by simp)
      · exact absurd h (by simp)
    · exact absurd h (by simp)
  · intro posRange closest
    intro p hp
    simp only [Scan.subset, List.mem_map] at hp
    rcases hp with ⟨q, _, hpq⟩
    subst hpq
    simp [Scan.nPositions, Scan.subset]

/-- Closed witness for the amended C1: `subset` of a concrete co-indexed
scan, and a `merge` of two width-compatible co-indexed scans that
returns normally. -/
theorem scan_coIndexed_preserved_witness :
    coIndexed (⟨[("a", [[1], [2]])], some [[0, 0], [1, 1]]⟩ : Scan) ∧
    coIndexed ((⟨[("a", [[1], [2]])], some [[0, 0], [1, 1]]⟩ : Scan).subset
      [[0, 0], [1, 1]] false) ∧
    coIndexed (⟨[("a", [[1], [2], [3]])], some [[0, 0], [1, 1], [2, 2]]⟩ : Scan) :=
  ⟨by unfold coIndexed; decide,
   (scan_coIndexed_preserved ⟨[("a", [[1], [2]])], some [[0, 0], [1, 1]]⟩
      (by unfold coIndexed; decide)).2.2 [[0, 0], [1, 1]] false,
   (scan_coIndexed_preserved ⟨[("a", [[1], [2]])], some [[0, 0], [1, 1]]⟩
      (by unfold coIndexed; decide)).2.1 ⟨[("a", [[3]])], some [[2, 2]]⟩
      ⟨[("a", [[1], [2], [3]])], some [[0, 0], [1, 1], [2, 2]]⟩
      (by unfold coIndexed; decide) (by decide)⟩

/-! ## Claim C2: padding / truncation to the common position count -/

/-- Counterexample to C2 as stated.  A Scan can hold loaded positions
(P = nPositions = 1 here) while holding no datasets (for instance after
`removeData` removed the last one).  `addData` then takes the
no-datasets branch of lines 186-191 and *re-reads* the positions before
padding, so the stored first-axis length is the freshly read position
count (2), not the previously loaded P = 1: the claim's "stored array has
first-axis length exactly P" fails. -/
theorem addData_pad_counterexample_C2 :
    (⟨[], some [[0, 0]]⟩ : Scan).nPositions = some 1 ∧
    (⟨[], some [[0, 0]]⟩ : Scan).addData "a" [[0, 0], [1, 1]] [[1], [2], [3]] =
      .ok ⟨[("a", [[1], [2]])], some [[0, 0], [1, 1]]⟩ ∧
    (2 : Nat) ≠ 1 := by
  refine ⟨rfl, ?_, by decide⟩
  rfl

/-- C2 (amended): for every Scan that already holds at least one dataset
(so that the stored positions, and with them P = nPositions, survive the
call), a successful `addData` stores the obtained dataset padded at the
end with `P - L` copies of the per-cell mean row when `L < P`, truncated
to its first `P` rows when `L > P`, and unchanged when `L = P`; in every
case the stored first-axis length is exactly `P`. -/
theorem addData_padTruncate_C2 (s : Scan) (name : String) (rp rd : Arr2)
    (r : Scan) (ps : Arr2) (hps : s.positions = some ps) (hne : s.data ≠ [])
    (h : s.addData name rp rd = .ok r) :
    ∃ stored, dictFind r.data (addDataName s name) = some stored ∧
      stored.length = ps.length ∧
      (rd.length < ps.length →
        stored = rd ++ List.replicate (ps.length - rd.length) (meanAxis0 rd)) ∧
      (rd.length > ps.length → stored = rd.take ps.length) ∧
      (rd.length = ps.length → stored = rd) := by
  have h0 : ¬ s.nDatasets = 0 := by
    simpa [Scan.nDatasets, List.length_eq_zero] using hne
  unfold Scan.addData at h
  rw [if_neg h0] at h
  split at h
  · exact absurd h (by simp)
  · split at h
    · exact absurd h (by simp)
    · rename_i ps2 hps2
      have hpseq : ps = ps2 := by
        rw [hps] at hps2
        exact Option.some.inj hps2
      subst hpseq
      split at h
      · simp only [Except.ok.injEq] at h
        subst h
        refine ⟨truncToPositions (padToPositions rd ps.length) ps.length,
          dictFind_dictSet_self _ _ _, padTrunc_length rd ps.length, ?_, ?_, ?_⟩
        · intro hlt
          exact padTrunc_lt hlt
        · intro hgt
          exact padTrunc_gt hgt
        · intro heq
          exact padTrunc_eq heq
      · exact absurd h (by simp)

/-- Closed witness for the amended C2: one dataset already loaded, P = 2,
a new dataset of length 1 is padded with its own mean row. -/
theorem addData_padTruncate_C2_witness :
    ∃ stored,
      dictFind [("a", [[1], [2]]), ("b", [[4], [4]])]
        (addDataName ⟨[("a", [[1], [2]])], some [[0, 0], [9, 9]]⟩ "b") = some stored ∧
      stored.length = 2 ∧
      stored = [[4]] ++ List.replicate 1 (meanAxis0 [[4]]) := by
  have hadd : (⟨[("a", [[1], [2]])], some [[0, 0], [9, 9]]⟩ : Scan).addData
      "b" [[0, 0], [9, 9]] [[4]] =
      .ok ⟨[("a", [[1], [2]]), ("b", [[4], [4]])], some [[0, 0], [9, 9]]⟩ := by
    simp [Scan.addData, addDataName, dictKeys, Scan.nDatasets, npAllEq, cell, bIdx,
      bcastOK, padToPositions, truncToPositions, meanAxis0, colMean, dictSet,
      List.range_succ]
  have h := addData_padTruncate_C2 ⟨[("a", [[1], [2]])], some [[0, 0], [9, 9]]⟩
    "b" [[0, 0], [9, 9]] [[4]]
    ⟨[("a", [[1], [2]]), ("b", [[4], [4]])], some [[0, 0], [9, 9]]⟩
    [[0, 0], [9, 9]] rfl (by decide) hadd
  rcases h with ⟨stored, hfind, hlen, hlt, _, _⟩
  exact ⟨stored, hfind, hlen, hlt (by decide)⟩

/-! ## Claim C3: consistency enforcement on later loads -/

/-- Counterexample to C3 as stated.  The source checks
`np.all(self.positions == self._readPositions())`, and `==` broadcasts:
with stored positions [[1,2],[1,2]] and a freshly read single position
[[1,2]], the arrays are not element-wise equal (they do not even have
the same shape), yet the broadcast comparison is all-True, no
`ValueError` is raised, and `addData` succeeds. -/
theorem addData_consistency_counterexample_C3 :
    (⟨[("a", [[0], [0]])], some [[1, 2], [1, 2]]⟩ : Scan).addData
        "b" [[1, 2]] [[5], [6]] =
      .ok ⟨[("a", [[0], [0]]), ("b", [[5], [6]])], some [[1, 2], [1, 2]]⟩ ∧
    ([[1, 2]] : Arr2) ≠ [[1, 2], [1, 2]] := by
  refine ⟨?_, by decide⟩
  rfl

/-- C3 (amended): when `addData` is called on a Scan that already holds
at least one dataset, it raises `ValueError` if the supplied dataset name
is already a key of `data`, and raises `ValueError` if the positions read
for the new dataset fail the numpy broadcast-equality test
`np.all(positions == read)` — in particular whenever both arrays have the
same rectangular shape and differ in some cell; in either error case the
error carries the scan state at raise time, whose data dict and positions
are the original ones unchanged. -/
theorem addData_consistency_C3 (s : Scan) (name : String) (rp rd : Arr2)
    (ps : Arr2) (hps : s.positions = some ps) (hne : s.data ≠ []) :
    (addDataName s name ∈ dictKeys s.data →
      s.addData name rp rd =
        .error ("Dataset " ++ addDataName s name ++ " already exists!", s)) ∧
    (addDataName s name ∉ dictKeys s.data → npAllEq ps rp = false →
      s.addData name rp rd =
        .error ("Positions of new dataset are inconsistent with previously loaded positions!", s)) ∧
    (∀ D : Nat, rp.length = ps.length → ps ≠ rp →
      (∀ row ∈ ps, row.length = D) → (∀ row ∈ rp, row.length = D) →
      npAllEq ps rp = false) := by
  have h0 : ¬ s.nDatasets = 0 := by
    simpa [Scan.nDatasets, List.length_eq_zero] using hne
  refine ⟨?_, ?_, ?_⟩
  · intro hdup
    unfold Scan.addData
    rw [if_neg h0, if_pos hdup]
  · intro hdup hneq
    unfold Scan.addData
    rw [if_neg h0, if_neg hdup, hps]
    simp only [hneq, Bool.false_eq_true, if_false]
  · intro D hlen hne2 hpsR hrpR
    by_cases hn0 : ps.length = 0
    · exact absurd (by
        cases ps with
        | nil =>
          cases rp with
          | nil => rfl
          | cons r rest => simp at hlen
        | cons r rest => simp at hn0) hne2
    · by_contra hc
      have htrue : npAllEq ps rp = true := by
        cases h : npAllEq ps rp
        · exact absurd h hc
        · rfl
      have := (npAllEq_same_shape (a := ps) (b := rp) (n := ps.length) (D := D)
        (by omega) rfl hlen hpsR hrpR).mp htrue
      exact hne2 (rect_cell_ext rfl hlen hpsR hrpR this)

/-- Closed witness for the amended C3: a duplicate name raises, and
element-wise different same-shape positions raise, with the original
scan state carried at raise time. -/
theorem addData_consistency_C3_witness :
    (⟨[("a", [[1], [2]])], some [[0], [1]]⟩ : Scan).addData "a" [[0], [1]] [[7], [8]] =
      .error ("Dataset a already exists!", ⟨[("a", [[1], [2]])], some [[0], [1]]⟩) ∧
    (⟨[("a", [[1], [2]])], some [[0], [1]]⟩ : Scan).addData "b" [[5], [6]] [[7], [8]] =
      .error ("Positions of new dataset are inconsistent with previously loaded positions!",
        ⟨[("a", [[1], [2]])], some [[0], [1]]⟩) := by
  constructor
  · exact (addData_consistency_C3 ⟨[("a", [[1], [2]])], some [[0], [1]]⟩
      "a" [[0], [1]] [[7], [8]] [[0], [1]] rfl (by decide)).1 (by decide)
  · refine (addData_consistency_C3 ⟨[("a", [[1], [2]])], some [[0], [1]]⟩
      "b" [[5], [6]] [[7], [8]] [[0], [1]] rfl (by decide)).2.1 (by decide) ?_
    exact (addData_consistency_C3 ⟨[("a", [[1], [2]])], some [[0], [1]]⟩
      "b" [[5], [6]] [[7], [8]] [[0], [1]] rfl (by decide)).2.2 1 (by decide)
      (by decide) (by decide) (by decide)

/-! ## Claim C4: descriptive exceptions on missing files and datasets -/

/-- C4: each `_safe_get_*` helper returns the stored value exactly when
the lookup succeeds, and raises `NoDataException` naming the missing path
and the filename exactly when the lookup fails with `KeyError`;
`contrast_stepscan._prepareData` raises `NoDataException` naming the file
when the main scan file cannot be found or opened. -/
theorem safe_get_errors_C4 {α : Type} (fp : H5File α) (fps : H5File H5Str)
    (path fileName : String) :
    (∀ v, fp.entries path = some v → _safe_get_array fp path = .ok v) ∧
    (fp.entries path = none ↔
      _safe_get_array fp path =
        .error ("Dataset " ++ path ++ " not found in " ++ fp.filename)) ∧
    (∀ v, fp.entries path = some v → _safe_get_dataset fp path = .ok v) ∧
    (fp.entries path = none ↔
      _safe_get_dataset fp path =
        .error ("Dataset " ++ path ++ " not found in " ++ fp.filename)) ∧
    (∀ b, fps.entries path = some (.bytes b) → _safe_get_str fps path = .ok b) ∧
    (∀ t, fps.entries path = some (.str t) → _safe_get_str fps path = .ok t) ∧
    (fps.entries path = none ↔
      _safe_get_str fps path =
        .error ("Dataset " ++ path ++ " not found in " ++ fps.filename)) ∧
    contrastStepscanFileCheck true fileName = .ok () ∧
    contrastStepscanFileCheck false fileName =
      .error ("Could not find or open the file " ++ fileName) := by
  refine ⟨?_, ?_, ?_, ?_, ?_, ?_, ?_, rfl, rfl⟩
  · intro v hv
    unfold _safe_get_array
    rw [hv]
  · cases hep : fp.entries path <;> simp [_safe_get_array, hep]
  · intro v hv
    unfold _safe_get_dataset
    rw [hv]
  · cases hep : fp.entries path <;> simp [_safe_get_dataset, hep]
  · intro b hb
    unfold _safe_get_str
    rw [hb]
  · intro t ht
    unfold _safe_get_str
    rw [ht]
  · cases hep : fps.entries path with
    | none => simp [_safe_get_str, hep]
    | some v => cases v <;> simp [_safe_get_str, hep]

/-- Closed witness for C4 on a two-entry handle. -/
theorem safe_get_errors_C4_witness :
    _safe_get_array
        (⟨fun p => if p = "g" then some (42 : ℚ) else none, "f.h5"⟩ : H5File ℚ)
        "g" = .ok 42 ∧
    _safe_get_array
        (⟨fun p => if p = "g" then some (42 : ℚ) else none, "f.h5"⟩ : H5File ℚ)
        "x" = .error ("Dataset " ++ "x" ++ " not found in " ++ "f.h5") := by
  constructor
  · exact (safe_get_errors_C4
      (⟨fun p => if p = "g" then some (42 : ℚ) else none, "f.h5"⟩ : H5File ℚ)
      (⟨fun _ => none, "s.h5"⟩ : H5File H5Str) "g" "m.h5").1 42 (by simp)
  · exact (safe_get_errors_C4
      (⟨fun p => if p = "g" then some (42 : ℚ) else none, "f.h5"⟩ : H5File ℚ)
      (⟨fun _ => none, "s.h5"⟩ : H5File H5Str) "x" "m.h5").2.1.mp (by simp)

/-! ## Claim C7: dimension and method preconditions run before any write -/

/-- C7: `interpolatedMap` fails with `AssertionError` for every scan that
is not 2-dimensional, and `export` fails its asserts for a dimensionality
outside 1, 2 or a method outside reshape/resample/none — in both export
cases with an empty event list, i.e. before the output file is created. -/
theorem assert_preconditions_C7 (s : Scan) (grid : Grid3) (origin method : String)
    (shape : Option (Nat × Nat)) :
    (s.nDimensions ≠ some 2 →
      s.interpolatedMap grid origin = .error "AssertionError: nDimensions == 2") ∧
    (¬ (s.nDimensions = some 1 ∨ s.nDimensions = some 2) ∨
        ¬ (method = "reshape" ∨ method = "resample" ∨ method = "none") →
      (s.exportH5 method shape).2.isSome = true ∧ (s.exportH5 method shape).1 = []) := by
  constructor
  · intro h
    unfold Scan.interpolatedMap
    rw [if_neg h]
  · intro h
    unfold Scan.exportH5
    by_cases h1 : s.nDimensions = some 1 ∨ s.nDimensions = some 2
    · have h2 : ¬ (method = "reshape" ∨ method = "resample" ∨ method = "none") := by
        tauto
      rw [if_neg (not_not.mpr h1), if_pos h2]
      exact ⟨rfl, rfl⟩
    · rw [if_pos h1]
      exact ⟨rfl, rfl⟩

/-- Closed witness for C7: a 3-dimensional scan fails the
`interpolatedMap` assert, and an unknown export method produces an error
with no file-creation event. -/
theorem assert_preconditions_C7_witness :
    (⟨[], some [[0, 0, 0]]⟩ : Scan).interpolatedMap ([[1]], [[2]], [[3]]) "lr" =
      .error "AssertionError: nDimensions == 2" ∧
    ((⟨[], some [[0, 0]]⟩ : Scan).exportH5 "bogus" none).1 = [] :=
  ⟨(assert_preconditions_C7 ⟨[], some [[0, 0, 0]]⟩ ([[1]], [[2]], [[3]]) "lr"
      "bogus" none).1 (by decide),
   ((assert_preconditions_C7 ⟨[], some [[0, 0]]⟩ ([[1]], [[2]], [[3]]) "lr"
      "bogus" none).2 (by decide)).2⟩

/-! ## Claim C8: origin flip relation of interpolatedMap -/

/-- C8: for a 2-dimensional scan and a fixed computed grid (the source
computes it before looking at `origin`), the triple returned with
origin `ll` is the fliplr of the `lr` triple, `ur` is its flipud, `ul`
is the composition of both flips, and any other origin string returns
the unflipped `lr` triple. -/
theorem interpolatedMap_origin_flips_C8 (s : Scan) (grid g0 : Grid3)
    (h2 : s.nDimensions = some 2)
    (hlr : s.interpolatedMap grid "lr" = .ok g0) :
    s.interpolatedMap grid "ll" = .ok (mapGrid3 fliplr g0) ∧
    s.interpolatedMap grid "ur" = .ok (mapGrid3 flipud g0) ∧
    s.interpolatedMap grid "ul" = .ok (mapGrid3 fliplr (mapGrid3 flipud g0)) ∧
    (∀ origin, origin ≠ "ll" → origin ≠ "ur" → origin ≠ "ul" →
      s.interpolatedMap grid origin = .ok g0) := by
  have hg : g0 = grid := by
    unfold Scan.interpolatedMap at hlr
    rw [if_pos h2] at hlr
    have happ : applyOrigin "lr" grid = grid := by
      unfold applyOrigin
      rw [if_neg (by decide), if_neg (by decide), if_neg (by decide)]
    rw [happ] at hlr
    exact (Except.ok.inj hlr).symm
  subst hg
  refine ⟨?_, ?_, ?_, ?_⟩
  · unfold Scan.interpolatedMap
    rw [if_pos h2]
    unfold applyOrigin
    rw [if_pos rfl]
  · unfold Scan.interpolatedMap
    rw [if_pos h2]
    unfold applyOrigin
    rw [if_neg (by decide), if_pos rfl]
  · unfold Scan.interpolatedMap
    rw [if_pos h2]
    unfold applyOrigin
    rw [if_neg (by decide), if_neg (by decide), if_pos rfl]
  · intro origin hll hur hul
    unfold Scan.interpolatedMap
    rw [if_pos h2]
    unfold applyOrigin
    rw [if_neg hll, if_neg hur, if_neg hul]

/-- Closed witness for C8 on a concrete 2-dimensional scan and grid. -/
theorem interpolatedMap_origin_flips_C8_witness :
    (⟨[], some [[0, 0]]⟩ : Scan).interpolatedMap ([[1, 2]], [[3, 4]], [[5, 6]]) "ll" =
      .ok (mapGrid3 fliplr ([[1, 2]], [[3, 4]], [[5, 6]])) :=
  (interpolatedMap_origin_flips_C8 ⟨[], some [[0, 0]]⟩
    ([[1, 2]], [[3, 4]], [[5, 6]]) ([[1, 2]], [[3, 4]], [[5, 6]]) rfl (by rfl)).1

/-! ## Claim C10: meanData default selection -/

/-- C10: `meanData name` returns the axis-0 mean of `data[name]`; called
with a falsy name it selects the unique dataset when exactly one is
loaded, and raises `ValueError` exactly when the number of loaded
datasets is not one. -/
theorem meanData_selection_C10 (s : Scan) (name : String) (d : Arr2) :
    (name ≠ "" → dictFind s.data name = some d → s.meanData name = .ok (meanAxis0 d)) ∧
    (∀ k0 d0, s.data = [(k0, d0)] → s.meanData "" = .ok (meanAxis0 d0)) ∧
    ((∃ e, s.meanData "" = .error e) ↔ s.nDatasets ≠ 1) := by
  refine ⟨?_, ?_, ?_, ?_⟩
  · intro hname hfind
    unfold Scan.meanData
    rw [if_neg hname, hfind]
  · intro k0 d0 hdata
    unfold Scan.meanData
    simp [hdata, Scan.nDatasets, dictKeys, dictFind]
  · rintro ⟨e, he⟩ h1
    have hsingle : ∃ k0 d0, s.data = [(k0, d0)] := by
      rcases hd : s.data with _ | ⟨p, rest⟩
      · rw [Scan.nDatasets, hd] at h1
        simp at h1
      · rcases rest with _ | ⟨q, r2⟩
        · exact ⟨p.1, p.2, by simp⟩
        · rw [Scan.nDatasets, hd] at h1
          simp at h1
    rcases hsingle with ⟨k0, d0, hdata⟩
    unfold Scan.meanData at he
    simp [hdata, Scan.nDatasets, dictKeys, dictFind] at he
  · intro h1
    refine ⟨"There is more than one dataset to choose from. Please specify!", ?_⟩
    unfold Scan.meanData
    rw [if_pos rfl, if_neg h1]

/-- Closed witness for C10: explicit name, unique-dataset default, and
the zero-dataset and two-dataset error cases. -/
theorem meanData_selection_C10_witness :
    (⟨[("a", [[1], [3]])], some [[0], [1]]⟩ : Scan).meanData "a" =
      .ok (meanAxis0 [[1], [3]]) ∧
    (⟨[("a", [[1], [3]])], some [[0], [1]]⟩ : Scan).meanData "" =
      .ok (meanAxis0 [[1], [3]]) ∧
    (∃ e, (⟨[], none⟩ : Scan).meanData "" = .error e) := by
  refine ⟨?_, ?_, ?_⟩
  · exact (meanData_selection_C10 ⟨[("a", [[1], [3]])], some [[0], [1]]⟩
      "a" [[1], [3]]).1 (by decide) (by simp [dictFind])
  · exact (meanData_selection_C10 ⟨[("a", [[1], [3]])], some [[0], [1]]⟩
      "a" [[1], [3]]).2.1 "a" [[1], [3]] rfl
  · exact (meanData_selection_C10 (⟨[], none⟩ : Scan) "" [[1]]).2.2.mpr (by decide)

/-! ## Claim C9: subset range filtering -/

theorem argminAux_spec (l : List ℚ) : ∀ (i best : Nat) (bv : ℚ),
    (argminAux l i best bv = best ∧ ∀ v ∈ l, bv ≤ v) ∨
    (∃ j, j < l.length ∧ argminAux l i best bv = i + j ∧
      (∀ v ∈ l, l.getD j 0 ≤ v) ∧ l.getD j 0 ≤ bv) := by
  induction l with
  | nil =>
    intro i best bv
    left
    exact ⟨rfl, by simp⟩
  | cons v rest ih =>
    intro i best bv
    by_cases hv : v < bv
    · have hstep : argminAux (v :: rest) i best bv = argminAux rest (i + 1) i v := by
        simp [argminAux, hv]
      rcases ih (i + 1) i v with ⟨heq, hall⟩ | ⟨j, hj, heq, hall, hle⟩
      · right
        refine ⟨0, by simp, by simpa [hstep] using heq, ?_, by
          simpa using le_of_lt hv⟩
        intro w hw
        rcases List.mem_cons.mp hw with h | h
        · simp [h]
        · simpa using hall w h
      · right
        refine ⟨j + 1, by simpa using hj, ?_, ?_, ?_⟩
        · rw [hstep, heq]
          omega
        · intro w hw
          rw [List.getD_cons_succ]
          rcases List.mem_cons.mp hw with h | h
          · rw [h]
            exact hle
          · exact hall w h
        · rw [List.getD_cons_succ]
          exact le_trans hle (le_of_lt hv)
    · have hstep : argminAux (v :: rest) i best bv = argminAux rest (i + 1) best bv := by
        simp [argminAux, hv]
      rcases ih (i + 1) best bv with ⟨heq, hall⟩ | ⟨j, hj, heq, hall, hle⟩
      · left
        refine ⟨by rwa [hstep], ?_⟩
        intro w hw
        rcases List.mem_cons.mp hw with h | h
        · rw [h]
          exact not_lt.mp hv
        · exact hall w h
      · right
        refine ⟨j + 1, by simpa using hj, ?_, ?_, ?_⟩
        · rw [hstep, heq]
          omega
        · intro w hw
          rw [List.getD_cons_succ]
          rcases List.mem_cons.mp hw with h | h
          · rw [h]
            exact le_trans hle (not_lt.mp hv)
          · exact hall w h
        · rw [List.getD_cons_succ]
          exact hle

theorem argminQ_spec (l : List ℚ) (hne : l ≠ []) :
    argminQ l < l.length ∧ ∀ v ∈ l, l.getD (argminQ l) 0 ≤ v := by
  cases l with
  | nil => exact absurd rfl hne
  | cons v rest =>
    have hred : argminQ (v :: rest) = argminAux rest 1 0 v := rfl
    rw [hred]
    rcases argminAux_spec rest 1 0 v with ⟨heq, hall⟩ | ⟨j, hj, heq, hall, hle⟩
    · rw [heq]
      refine ⟨by simp, ?_⟩
      intro w hw
      rcases List.mem_cons.mp hw with h | h
      · simp [h]
      · simpa using hall w h
    · rw [heq]
      have hgd : (v :: rest).getD (1 + j) 0 = rest.getD j 0 := by
        rw [Nat.add_comm]
        exact List.getD_cons_succ
      refine ⟨by simp; omega, ?_⟩
      intro w hw
      rw [hgd]
      rcases List.mem_cons.mp hw with h | h
      · rw [h]
        exact hle
      · exact hall w h

theorem filter_range_map_getD {α : Type} (l : List α) (da : α) (p : α → Bool) :
    ((List.range l.length).filter fun i => p (l.getD i da)).map
      (fun i => l.getD i da) = l.filter p := by
  induction l with
  | nil => simp
  | cons a l ih =>
    have hrange : List.range (a :: l).length = 0 :: (List.range l.length).map Nat.succ := by
      simpa using List.range_succ_eq_map l.length
    rw [hrange, List.filter_cons]
    have hcomp : ((List.range l.length).map Nat.succ).filter
        (fun i => p ((a :: l).getD i da)) =
        ((List.range l.length).filter fun i => p (l.getD i da)).map Nat.succ := by
      rw [List.filter_map]
      congr 1
    simp only [List.getD_cons_zero]
    by_cases hp : p a
    · rw [if_pos hp]
      rw [List.map_cons, hcomp, List.map_map]
      have : ((List.range l.length).filter fun i => p (l.getD i da)).map
          ((fun i => (a :: l).getD i da) ∘ Nat.succ) =
          ((List.range l.length).filter fun i => p (l.getD i da)).map
          (fun i => l.getD i da) := by
        apply List.map_congr_left
        intro i _
        simp [Function.comp]
      rw [this, ih, List.filter_cons, if_pos hp]
      simp
    · rw [if_neg hp]
      rw [hcomp, List.map_map]
      have : ((List.range l.length).filter fun i => p (l.getD i da)).map
          ((fun i => (a :: l).getD i da) ∘ Nat.succ) =
          ((List.range l.length).filter fun i => p (l.getD i da)).map
          (fun i => l.getD i da) := by
        apply List.map_congr_left
        intro i _
        simp [Function.comp]
      rw [this, ih, List.filter_cons, if_neg hp]

theorem filter_range_map_getD_zip {α β : Type} (l : List α) (da : α) (db : β)
    (p : α → Bool) : ∀ (m : List β), m.length = l.length →
    ((List.range l.length).filter fun i => p (l.getD i da)).map
      (fun i => m.getD i db) = ((l.zip m).filter fun q => p q.1).map Prod.snd := by
  induction l with
  | nil =>
    intro m hm
    simp
  | cons a l ih =>
    intro m hm
    cases m with
    | nil => simp at hm
    | cons b m =>
      have hm2 : m.length = l.length := by simpa using hm
      have hrange : List.range (a :: l).length = 0 :: (List.range l.length).map Nat.succ := by
        simpa using List.range_succ_eq_map l.length
      rw [hrange, List.filter_cons]
      have hcomp : ((List.range l.length).map Nat.succ).filter
          (fun i => p ((a :: l).getD i da)) =
          ((List.range l.length).filter fun i => p (l.getD i da)).map Nat.succ := by
        rw [List.filter_map]
        congr 1
      have hmm : ((List.range l.length).filter fun i => p (l.getD i da)).map
          ((fun i => (b :: m).getD i db) ∘ Nat.succ) =
          ((List.range l.length).filter fun i => p (l.getD i da)).map
          (fun i => m.getD i db) := by
        apply List.map_congr_left
        intro i _
        simp [Function.comp]
      simp only [List.getD_cons_zero]
      by_cases hp : p a
      · rw [if_pos hp, List.map_cons, hcomp, List.map_map, hmm, ih m hm2]
        rw [List.zip_cons_cons, List.filter_cons, if_pos hp, List.map_cons]
        simp
      · rw [if_neg hp, hcomp, List.map_map, hmm, ih m hm2]
        rw [List.zip_cons_cons, List.filter_cons, if_neg hp]

theorem dictFind_map_snd (d : List (String × Arr2)) (k : String) (f : Arr2 → Arr2) :
    dictFind (d.map fun p => (p.1, f p.2)) k = (dictFind d k).map f := by
  induction d with
  | nil => simp [dictFind]
  | cons q rest ih =>
    by_cases hk : q.1 = k
    · simp [dictFind, hk]
    · simpa [dictFind, hk] using ih

theorem rowInRange_iff (lo hi row : List ℚ) (D : Nat) :
    rowInRange lo hi row D = true ↔
      ∀ dim < D, lo.getD dim 0 ≤ row.getD dim 0 ∧ row.getD dim 0 ≤ hi.getD dim 0 := by
  unfold rowInRange
  rw [List.all_eq_true]
  constructor
  · intro h dim hdim
    have := h dim (List.mem_range.mpr hdim)
    simp only [Bool.not_eq_true', Bool.or_eq_false_iff, decide_eq_false_iff_not,
      not_lt] at this
    exact this
  · intro h dim hdim2
    simp only [Bool.not_eq_true', Bool.or_eq_false_iff, decide_eq_false_iff_not, not_lt]
    exact h dim (List.mem_range.mp hdim2)

/-- C9: `subset` keeps exactly the in-range positions in their original
order together with the co-indexed rows of every dataset (the original
scan is untouched — the model is pure, and the source only appends rows
of `self` to fresh lists); with `closest` set and nothing in range, the
result is the single position minimising the squared distance to the
centre of the range. -/
theorem subset_range_filtering_C9 (s : Scan) (ps : Arr2) (lo hi : List ℚ)
    (hps : s.positions = some ps) :
    ((s.subset [lo, hi] false).positions =
      some (ps.filter fun row => rowInRange lo hi row (ps.headD []).length)) ∧
    (∀ row ∈ (s.subset [lo, hi] false).positions.getD [],
      ∀ dim < (ps.headD []).length,
        lo.getD dim 0 ≤ row.getD dim 0 ∧ row.getD dim 0 ≤ hi.getD dim 0) ∧
    (∀ k d, dictFind s.data k = some d → d.length = ps.length →
      dictFind (s.subset [lo, hi] false).data k =
        some (((ps.zip d).filter fun q =>
          rowInRange lo hi q.1 (ps.headD []).length).map Prod.snd)) ∧
    (ps ≠ [] →
      (ps.filter fun row => rowInRange lo hi row (ps.headD []).length) = [] →
      ∃ idx, idx < ps.length ∧
        (s.subset [lo, hi] true).positions = some [ps.getD idx []] ∧
        ∀ i < ps.length,
          sqDist (ps.getD idx []) (meanAxis0 [lo, hi]) ≤
            sqDist (ps.getD i []) (meanAxis0 [lo, hi])) := by
  have hkept : ∀ cl : Bool, (s.subset [lo, hi] cl) =
      { data := s.data.map fun p => (p.1,
          ((if ((List.range ps.length).filter fun i =>
              rowInRange lo hi (ps.getD i []) (ps.headD []).length) = [] ∧ cl = true
            then [argminQ (ps.map fun row => sqDist row (meanAxis0 [lo, hi]))]
            else (List.range ps.length).filter fun i =>
              rowInRange lo hi (ps.getD i []) (ps.headD []).length)).map
            fun i => p.2.getD i []),
        positions := some
          (((if ((List.range ps.length).filter fun i =>
              rowInRange lo hi (ps.getD i []) (ps.headD []).length) = [] ∧ cl = true
            then [argminQ (ps.map fun row => sqDist row (meanAxis0 [lo, hi]))]
            else (List.range ps.length).filter fun i =>
              rowInRange lo hi (ps.getD i []) (ps.headD []).length)).map
            fun i => ps.getD i []) } := by
    intro cl
    unfold Scan.subset
    rw [hps]
    rfl
  have hposf : (s.subset [lo, hi] false).positions =
      some (ps.filter fun row => rowInRange lo hi row (ps.headD []).length) := by
    rw [hkept false]
    simp only [Bool.false_eq_true, and_false, if_false]
    exact congrArg some (filter_range_map_getD ps []
      (fun row => rowInRange lo hi row (ps.headD []).length))
  refine ⟨hposf, ?_, ?_, ?_⟩
  · intro row hrow dim hdim
    rw [hposf] at hrow
    simp only [Option.getD_some] at hrow
    have := List.of_mem_filter hrow
    exact (rowInRange_iff lo hi row (ps.headD []).length).mp this dim hdim
  · intro k d hfind hlen
    rw [hkept false]
    simp only [Bool.false_eq_true, and_false, if_false]
    have hdm := dictFind_map_snd s.data k
      (fun v => ((List.range ps.length).filter fun i =>
        rowInRange lo hi (ps.getD i []) (ps.headD []).length).map fun i => v.getD i [])
    rw [hdm, hfind]
    simp only [Option.map_some']
    exact congrArg some (filter_range_map_getD_zip ps [] []
      (fun row => rowInRange lo hi row (ps.headD []).length) d hlen)
  · intro hne hfil
    have hkeptnil : ((List.range ps.length).filter fun i =>
        rowInRange lo hi (ps.getD i []) (ps.headD []).length) = [] := by
      have := filter_range_map_getD ps []
        (fun row => rowInRange lo hi row (ps.headD []).length)
      rw [hfil] at this
      exact List.map_eq_nil_iff.mp this
    have hdne : (ps.map fun row => sqDist row (meanAxis0 [lo, hi])) ≠ [] := by
      simp [hne]
    rcases argminQ_spec _ hdne with ⟨hlt, hmin⟩
    rw [List.length_map] at hlt
    refine ⟨argminQ (ps.map fun row => sqDist row (meanAxis0 [lo, hi])), hlt, ?_, ?_⟩
    · rw [hkept true]
      simp only [hkeptnil]
      rw [if_pos (by simp)]
      rfl
    · intro i hi2
      have hgd : ∀ j, j < ps.length →
          (ps.map fun row => sqDist row (meanAxis0 [lo, hi])).getD j 0 =
            sqDist (ps.getD j []) (meanAxis0 [lo, hi]) := by
        intro j hj
        rw [getD_of_lt _ _ (by simpa using hj), getD_of_lt _ _ hj]
        exact List.getElem_map _
      have hmem : (ps.map fun row => sqDist row (meanAxis0 [lo, hi])).getD i 0 ∈
          (ps.map fun row => sqDist row (meanAxis0 [lo, hi])) := by
        rw [getD_of_lt _ _ (by simpa using hi2)]
        exact List.getElem_mem _
      have := hmin _ hmem
      rwa [hgd _ hlt, hgd _ hi2] at this

/-- Closed witness for C9 on a concrete three-position scan. -/
theorem subset_range_filtering_C9_witness :
    ((⟨[("a", [[1], [2], [3]])], some [[0, 0], [1, 1], [2, 2]]⟩ : Scan).subset
        [[0, 0], [1, 1]] false).positions =
      some (([[0, 0], [1, 1], [2, 2]] : Arr2).filter fun row =>
        rowInRange [0, 0] [1, 1] row 2) :=
  (subset_range_filtering_C9 ⟨[("a", [[1], [2], [3]])], some [[0, 0], [1, 1], [2, 2]]⟩
    [[0, 0], [1, 1], [2, 2]] [0, 0] [1, 1] rfl).1

/-! ## Claim C5: irregular-grid detection -/

theorem intDiff_cons_cons (a b : ℤ) (l : List ℤ) :
    intDiff (a :: b :: l) = (b - a) :: intDiff (b :: l) := rfl

theorem listSum_cast (l : List Nat) :
    (l.map (Nat.cast : ℕ → ℤ)).sum = (l.sum : ℤ) := by
  induction l with
  | nil => simp
  | cons a l ih =>
    rw [List.map_cons, List.sum_cons, List.sum_cons, Nat.cast_add, ih]

theorem natCast_div_int (m n : Nat) : ((m / n : Nat) : ℤ) = (m : ℤ) / (n : ℤ) :=
  Int.ofNat_div m n

theorem intDiff_cast_segLensFrom :
    ∀ (bs : List Nat) (b : Nat), (∀ x ∈ bs, b < x) → bs.Pairwise (· < ·) →
      intDiff ((b : ℤ) :: bs.map (Nat.cast : ℕ → ℤ)) =
        (segLensFrom b bs).map (Nat.cast : ℕ → ℤ) := by
  intro bs
  induction bs with
  | nil =>
    intro b _ _
    rfl
  | cons b2 bs ih =>
    intro b hb hp
    rw [List.map_cons, intDiff_cons_cons]
    have hlt : b < b2 := hb b2 (by simp)
    have hp2 := List.pairwise_cons.mp hp
    rw [ih b2 hp2.1 hp2.2]
    have hcast : (b2 : ℤ) - (b : ℤ) = ((b2 - b : Nat) : ℤ) := by
      rw [Nat.cast_sub (le_of_lt hlt)]
    rw [hcast]
    rfl

/-- The `np.insert` / `np.diff` dance of `_shapeFromPositions2D` computes
exactly the claim-side segment lengths, for strictly increasing break
indices. -/
theorem dim_eq_segLens (breaks : List Nat) (hp : breaks.Pairwise (· < ·)) :
    intDiff ((-1 : ℤ) :: breaks.map (Nat.cast : ℕ → ℤ)) =
      (segLens breaks).map (Nat.cast : ℕ → ℤ) := by
  cases breaks with
  | nil => rfl
  | cons b bs =>
    rw [List.map_cons, intDiff_cons_cons]
    have hp2 := List.pairwise_cons.mp hp
    rw [intDiff_cast_segLensFrom bs b hp2.1 hp2.2]
    have hcast : (b : ℤ) - (-1 : ℤ) = ((b + 1 : Nat) : ℤ) := by
      push_cast
      ring
    rw [hcast]
    rfl

theorem npWhereGt_pairwise (v : List ℚ) (t : ℚ) :
    (npWhereGt v t).Pairwise (· < ·) :=
  (List.pairwise_lt_range _).filter _

/-- The integer mean `np.mean(dim, dtype=np.int)` of the diffed break
indices equals the claim-side integer mean of the segment lengths. -/
theorem dimSum_div (breaks : List Nat) (hp : breaks.Pairwise (· < ·)) :
    (intDiff ((-1 : ℤ) :: breaks.map (Nat.cast : ℕ → ℤ))).sum /
      ((intDiff ((-1 : ℤ) :: breaks.map (Nat.cast : ℕ → ℤ))).length : ℤ) =
      ((claimFastAxisDim breaks : Nat) : ℤ) := by
  rw [dim_eq_segLens breaks hp, List.length_map, listSum_cast]
  rw [claimFastAxisDim, natCast_div_int]

/-- C5: `_shapeFromPositions2D` picks x as the fast axis exactly when the
median absolute x-step exceeds the median absolute y-step, counts a line
break at every index whose fast-axis absolute step exceeds half the
fast-axis range, and returns (positions // fast, fast) with fast the
integer mean of the segment lengths ending at the breaks; and `export`
with method reshape and no shape raises whenever the inferred product
differs from nPositions. -/
theorem shapeFromPositions_C5 (x y : List ℚ) (hxy : x.length = y.length)
    (hbr : claimBreaks x y ≠ []) :
    (_shapeFromPositions2D x y =
      ((((x.length / claimFastAxisDim (claimBreaks x y) : Nat) : ℤ),
        ((claimFastAxisDim (claimBreaks x y) : Nat) : ℤ)),
       if median (absDiff x) > median (absDiff y) then "x" else "y")) ∧
    (∀ (s : Scan) (ps : Arr2), s.positions = some ps →
      (s.nDimensions = some 1 ∨ s.nDimensions = some 2) →
      (_shapeFromPositions2D (ps.map fun r => r.getD 0 0)
          (ps.map fun r => r.getD 1 0)).1.1 *
        (_shapeFromPositions2D (ps.map fun r => r.getD 0 0)
          (ps.map fun r => r.getD 1 0)).1.2 ≠ (ps.length : ℤ) →
      (s.exportH5 "reshape" none).2.isSome = true) := by
  constructor
  · by_cases hfx : median (absDiff x) > median (absDiff y)
    · simp only [_shapeFromPositions2D, claimBreaks, if_pos hfx]
      rw [dimSum_div _ (npWhereGt_pairwise _ _), ← natCast_div_int]
    · simp only [_shapeFromPositions2D, claimBreaks, if_neg hfx]
      rw [dimSum_div _ (npWhereGt_pairwise _ _), ← hxy, ← natCast_div_int]
  · intro s ps hps hdim hne
    unfold Scan.exportH5
    rw [if_neg (not_not.mpr hdim)]
    rw [if_neg (not_not.mpr (Or.inl rfl))]
    rw [if_pos ⟨rfl, rfl⟩, hps]
    simp only [Option.getD_some]
    rw [if_pos hne]
    rfl

/-- Closed witness for C5: a 3-by-3 snake-free grid scan, x fast. -/
theorem shapeFromPositions_C5_witness :
    _shapeFromPositions2D [0, 1, 2, 0, 1, 2, 0, 1, 2] [0, 0, 0, 1, 1, 1, 2, 2, 2] =
      ((((9 / claimFastAxisDim (claimBreaks [0, 1, 2, 0, 1, 2, 0, 1, 2]
          [0, 0, 0, 1, 1, 1, 2, 2, 2]) : Nat) : ℤ),
        ((claimFastAxisDim (claimBreaks [0, 1, 2, 0, 1, 2, 0, 1, 2]
          [0, 0, 0, 1, 1, 1, 2, 2, 2]) : Nat) : ℤ)),
       if median (absDiff [0, 1, 2, 0, 1, 2, 0, 1, 2]) >
          median (absDiff [0, 0, 0, 1, 1, 1, 2, 2, 2]) then "x" else "y") :=
  (shapeFromPositions_C5 [0, 1, 2, 0, 1, 2, 0, 1, 2] [0, 0, 0, 1, 1, 1, 2, 2, 2]
    (by decide)
    (by
      norm_num [claimBreaks, npWhereGt, absDiff, median, maxQ, minQ,
        List.insertionSort, List.orderedInsert, List.range_succ]
      decide)).1

/-! ## Claim C6: adaptive chunk-size bound -/

theorem calcChunk_nil (d : Nat) : _calcChunkSize [] d = none := by
  simp [_calcChunkSize]

theorem calcChunk_single (x d : Nat) :
    _calcChunkSize [x] d =
      if d * x ≤ maxChunkSz then none else some [maxChunkSz / d] := by
  simp only [_calcChunkSize]

theorem calcChunk_cons (a b : Nat) (rest : List Nat) (d : Nat) :
    _calcChunkSize (a :: b :: rest) d =
      match _calcChunkSize [(a :: b :: rest).getLastD 0] d with
      | some chunk => some (List.replicate (rest.length + 1) 1 ++ chunk)
      | none =>
        match _calcChunkSize ((a :: b :: rest).dropLast)
            ((a :: b :: rest).getLastD 0 * d) with
        | some chunk => some (chunk ++ [(a :: b :: rest).getLastD 0])
        | none =>
          if d * (a :: b :: rest).prod > maxChunkSz then some (a :: b :: rest)
          else none := by
  conv_lhs => rw [_calcChunkSize]

theorem hitsFull_cons (a b : Nat) (rest : List Nat) (d : Nat) :
    _calcChunkHitsFull (a :: b :: rest) d =
      match _calcChunkSize [(a :: b :: rest).getLastD 0] d with
      | some _ => false
      | none =>
        _calcChunkHitsFull ((a :: b :: rest).dropLast)
            ((a :: b :: rest).getLastD 0 * d) ||
        (match _calcChunkSize ((a :: b :: rest).dropLast)
            ((a :: b :: rest).getLastD 0 * d) with
         | some _ => false
         | none => decide (d * (a :: b :: rest).prod > maxChunkSz)) := by
  conv_lhs => rw [_calcChunkHitsFull]

theorem hitsFull_nil (d : Nat) : _calcChunkHitsFull [] d = false := by
  simp [_calcChunkHitsFull]

theorem hitsFull_single (x d : Nat) : _calcChunkHitsFull [x] d = false := by
  simp [_calcChunkHitsFull]

theorem dropLast_append_getLastD :
    ∀ (l : List Nat), l ≠ [] → l.dropLast ++ [l.getLastD 0] = l := by
  intro l
  induction l with
  | nil =>
    intro h
    exact absurd rfl h
  | cons a l ih =>
    intro _
    cases l with
    | nil => rfl
    | cons b l2 =>
      have h2 : (b :: l2).dropLast ++ [(b :: l2).getLastD 0] = b :: l2 :=
        ih (by simp)
      have hgl : (a :: b :: l2).getLastD 0 = (b :: l2).getLastD 0 := by
        rw [List.getLastD_eq_getLast?, List.getLastD_eq_getLast?,
          List.getLast?_cons_cons]
      have hdl : (a :: b :: l2).dropLast = a :: (b :: l2).dropLast := rfl
      rw [hgl, hdl, List.cons_append, h2]

theorem forall2_replicate_one (l : List Nat) (h : ∀ x ∈ l, 1 ≤ x) :
    List.Forall₂ (fun ci si => 1 ≤ ci ∧ ci ≤ si) (List.replicate l.length 1) l := by
  induction l with
  | nil => exact List.Forall₂.nil
  | cons a l ih =>
    rw [List.length_cons, List.replicate_succ]
    exact List.Forall₂.cons ⟨le_refl 1, h a (by simp)⟩
      (ih fun x hx => h x (by simp [hx]))

/-- Full specification of `_calcChunkSize` under the preconditions of C6,
by strong induction on the number of dimensions: any returned chunk has
the same rank, entries between 1 and the shape, and at most `maxChunkSz`
bytes; a `none` answer means the whole array already fits in a chunk; and
the final chunk-everything branch never fires. -/
theorem calcChunk_spec : ∀ (n : Nat) (shape : List Nat) (dsize : Nat),
    shape.length ≤ n → (∀ x ∈ shape, 1 ≤ x) → 1 ≤ dsize → dsize ≤ maxChunkSz →
    ((_calcChunkSize shape dsize = none →
        dsize * shape.prod ≤ maxChunkSz ∨ shape = []) ∧
     (∀ c, _calcChunkSize shape dsize = some c →
        c.length = shape.length ∧
        List.Forall₂ (fun ci si => 1 ≤ ci ∧ ci ≤ si) c shape ∧
        dsize * c.prod ≤ maxChunkSz) ∧
     _calcChunkHitsFull shape dsize = false) := by
  intro n
  induction n with
  | zero =>
    intro shape dsize hlen hsh hd1 hdM
    have hnil : shape = [] := List.length_eq_zero.mp (Nat.le_zero.mp hlen)
    subst hnil
    refine ⟨fun _ => Or.inr rfl, ?_, hitsFull_nil dsize⟩
    intro c hc
    rw [calcChunk_nil] at hc
    exact absurd hc (by simp)
  | succ n ih =>
    intro shape dsize hlen hsh hd1 hdM
    have hM1 : 1 ≤ maxChunkSz := by
      unfold maxChunkSz
      norm_num
    match shape with
    | [] =>
      refine ⟨fun _ => Or.inr rfl, ?_, hitsFull_nil dsize⟩
      intro c hc
      rw [calcChunk_nil] at hc
      exact absurd hc (by simp)
    | [x] =>
      have hx1 : 1 ≤ x := hsh x (by simp)
      refine ⟨?_, ?_, hitsFull_single x dsize⟩
      · intro hc
        rw [calcChunk_single] at hc
        left
        by_cases hfit : dsize * x ≤ maxChunkSz
        · simpa using hfit
        · rw [if_neg hfit] at hc
          exact absurd hc (by simp)
      · intro c hc
        rw [calcChunk_single] at hc
        by_cases hfit : dsize * x ≤ maxChunkSz
        · rw [if_pos hfit] at hc
          exact absurd hc (by simp)
        · rw [if_neg hfit] at hc
          have hceq : c = [maxChunkSz / dsize] := by
            exact (Option.some.inj hc).symm
          subst hceq
          have hgt : maxChunkSz < dsize * x := Nat.lt_of_not_le hfit
          have hq1 : 1 ≤ maxChunkSz / dsize := (Nat.one_le_div_iff (by omega)).mpr hdM
          have hgt2 : maxChunkSz < x * dsize := by
            rw [Nat.mul_comm x dsize]
            exact hgt
          have hqx : maxChunkSz / dsize ≤ x :=
            Nat.le_of_lt ((Nat.div_lt_iff_lt_mul (show 0 < dsize by omega)).mpr hgt2)
          refine ⟨by simp, List.Forall₂.cons ⟨hq1, hqx⟩ List.Forall₂.nil, ?_⟩
          have hb : maxChunkSz / dsize * dsize ≤ maxChunkSz :=
            Nat.div_mul_le_self maxChunkSz dsize
          calc dsize * List.prod [maxChunkSz / dsize]
              = maxChunkSz / dsize * dsize := by
                simp [Nat.mul_comm]
            _ ≤ maxChunkSz := hb
    | a :: b :: rest =>
      have hne : (a :: b :: rest) ≠ ([] : List Nat) := by simp
      have hshape := dropLast_append_getLastD (a :: b :: rest) hne
      have hfl : (a :: b :: rest).dropLast.length = rest.length + 1 := by
        rw [List.length_dropLast]
        simp
      have hlastmem : (a :: b :: rest).getLastD 0 ∈ (a :: b :: rest) := by
        have hmem : (a :: b :: rest).getLastD 0 ∈
            (a :: b :: rest).dropLast ++ [(a :: b :: rest).getLastD 0] := by simp
        rwa [hshape] at hmem
      have hlast1 : 1 ≤ (a :: b :: rest).getLastD 0 := hsh _ hlastmem
      have hfrontmem : ∀ x ∈ (a :: b :: rest).dropLast, 1 ≤ x := by
        intro x hx
        apply hsh
        rw [← hshape]
        exact List.mem_append_left _ hx
      have hfrontlen : (a :: b :: rest).dropLast.length ≤ n := by
        rw [hfl]
        simp only [List.length_cons] at hlen
        omega
      have hprodsplit : (a :: b :: rest).prod =
          (a :: b :: rest).dropLast.prod * (a :: b :: rest).getLastD 0 := by
        conv_lhs => rw [← hshape]
        rw [List.prod_append]
        simp
      cases h1 : _calcChunkSize [(a :: b :: rest).getLastD 0] dsize with
      | some chunk1 =>
        -- a single row of cells already exceeds the chunk limit
        have hchunk1 : maxChunkSz < dsize * (a :: b :: rest).getLastD 0 ∧
            chunk1 = [maxChunkSz / dsize] := by
          rw [calcChunk_single] at h1
          by_cases hfit : dsize * (a :: b :: rest).getLastD 0 ≤ maxChunkSz
          · rw [if_pos hfit] at h1
            exact absurd h1 (by simp)
          · rw [if_neg hfit] at h1
            exact ⟨Nat.lt_of_not_le hfit, (Option.some.inj h1).symm⟩
        have hres : _calcChunkSize (a :: b :: rest) dsize =
            some (List.replicate (rest.length + 1) 1 ++ chunk1) := by
          rw [calcChunk_cons, h1]
        have hhits : _calcChunkHitsFull (a :: b :: rest) dsize = false := by
          rw [hitsFull_cons, h1]
        refine ⟨?_, ?_, hhits⟩
        · intro hc
          rw [hres] at hc
          exact absurd hc (by simp)
        · intro c hc
          rw [hres] at hc
          have hceq : c = List.replicate (rest.length + 1) 1 ++ chunk1 :=
            (Option.some.inj hc).symm
          subst hceq
          rcases hchunk1 with ⟨hgt, hch⟩
          subst hch
          have hq1 : 1 ≤ maxChunkSz / dsize := (Nat.one_le_div_iff (by omega)).mpr hdM
          have hgt2 : maxChunkSz < (a :: b :: rest).getLastD 0 * dsize := by
            rw [Nat.mul_comm]
            exact hgt
          have hqx : maxChunkSz / dsize ≤ (a :: b :: rest).getLastD 0 :=
            Nat.le_of_lt ((Nat.div_lt_iff_lt_mul (show 0 < dsize by omega)).mpr hgt2)
          refine ⟨by simp, ?_, ?_⟩
          · have hf2 : List.Forall₂ (fun ci si => 1 ≤ ci ∧ ci ≤ si)
                (List.replicate (a :: b :: rest).dropLast.length 1)
                (a :: b :: rest).dropLast :=
              forall2_replicate_one _ hfrontmem
            rw [hfl] at hf2
            have h3 : List.Forall₂ (fun ci si => 1 ≤ ci ∧ ci ≤ si)
                (List.replicate (rest.length + 1) 1 ++ [maxChunkSz / dsize])
                ((a :: b :: rest).dropLast ++ [(a :: b :: rest).getLastD 0]) :=
              List.rel_append hf2 (List.Forall₂.cons ⟨hq1, hqx⟩ List.Forall₂.nil)
            exact hshape ▸ h3
          · rw [List.prod_append, List.prod_replicate, one_pow, one_mul]
            have hb : maxChunkSz / dsize * dsize ≤ maxChunkSz :=
              Nat.div_mul_le_self maxChunkSz dsize
            calc dsize * List.prod [maxChunkSz / dsize]
                = maxChunkSz / dsize * dsize := by simp [Nat.mul_comm]
              _ ≤ maxChunkSz := hb
      | none =>
        -- the last dimension fits; recurse on the leading dimensions
        have hfit : dsize * (a :: b :: rest).getLastD 0 ≤ maxChunkSz := by
          rw [calcChunk_single] at h1
          by_cases hfit : dsize * (a :: b :: rest).getLastD 0 ≤ maxChunkSz
          · exact hfit
          · rw [if_neg hfit] at h1
            exact absurd h1 (by simp)
        have hd1' : 1 ≤ (a :: b :: rest).getLastD 0 * dsize :=
          Nat.one_le_iff_ne_zero.mpr
            (Nat.mul_ne_zero (by omega) (by omega))
        have hdM' : (a :: b :: rest).getLastD 0 * dsize ≤ maxChunkSz := by
          rw [Nat.mul_comm]
          exact hfit
        have IH := ih (a :: b :: rest).dropLast
          ((a :: b :: rest).getLastD 0 * dsize) hfrontlen hfrontmem hd1' hdM'
        cases h2 : _calcChunkSize ((a :: b :: rest).dropLast)
            ((a :: b :: rest).getLastD 0 * dsize) with
        | some chunk2 =>
          have hres : _calcChunkSize (a :: b :: rest) dsize =
              some (chunk2 ++ [(a :: b :: rest).getLastD 0]) := by
            rw [calcChunk_cons, h1, h2]
          have hhits : _calcChunkHitsFull (a :: b :: rest) dsize = false := by
            rw [hitsFull_cons, h1]
            rw [IH.2.2, h2]
            rfl
          refine ⟨?_, ?_, hhits⟩
          · intro hc
            rw [hres] at hc
            exact absurd hc (by simp)
          · intro c hc
            rw [hres] at hc
            have hceq : c = chunk2 ++ [(a :: b :: rest).getLastD 0] :=
              (Option.some.inj hc).symm
            subst hceq
            rcases IH.2.1 chunk2 h2 with ⟨hl2, hf2, hp2⟩
            refine ⟨?_, ?_, ?_⟩
            · rw [List.length_append, hl2, hfl]
              simp
            · have h3 : List.Forall₂ (fun ci si => 1 ≤ ci ∧ ci ≤ si)
                  (chunk2 ++ [(a :: b :: rest).getLastD 0])
                  ((a :: b :: rest).dropLast ++ [(a :: b :: rest).getLastD 0]) :=
                List.rel_append hf2
                  (List.Forall₂.cons ⟨hlast1, le_refl _⟩ List.Forall₂.nil)
              exact (congrArg (fun l => List.Forall₂ (fun ci si => 1 ≤ ci ∧ ci ≤ si)
                (chunk2 ++ [(a :: b :: rest).getLastD 0]) l) hshape).mp h3
            · rw [List.prod_append]
              simp only [List.prod_cons, List.prod_nil, mul_one]
              calc dsize * (chunk2.prod * (a :: b :: rest).getLastD 0)
                  = (a :: b :: rest).getLastD 0 * dsize * chunk2.prod := by ring
                _ ≤ maxChunkSz := hp2
        | none =>
          have hfrne : (a :: b :: rest).dropLast ≠ [] := by
            intro hcon
            rw [hcon] at hfl
            simp at hfl
          have hfb : (a :: b :: rest).getLastD 0 * dsize *
              (a :: b :: rest).dropLast.prod ≤ maxChunkSz := by
            rcases IH.1 h2 with hok | hnil
            · exact hok
            · exact absurd hnil hfrne
          have htot : dsize * (a :: b :: rest).prod ≤ maxChunkSz := by
            rw [hprodsplit]
            calc dsize * ((a :: b :: rest).dropLast.prod * (a :: b :: rest).getLastD 0)
                = (a :: b :: rest).getLastD 0 * dsize *
                  (a :: b :: rest).dropLast.prod := by ring
              _ ≤ maxChunkSz := hfb
          have hres : _calcChunkSize (a :: b :: rest) dsize = none := by
            rw [calcChunk_cons, h1, h2]
            simp only [gt_iff_lt]
            rw [if_neg (Nat.not_lt.mpr htot)]
          have hhits : _calcChunkHitsFull (a :: b :: rest) dsize = false := by
            rw [hitsFull_cons, h1]
            rw [IH.2.2, h2]
            simp only [Bool.false_or]
            rw [decide_eq_false_iff_not]
            exact Nat.not_lt.mpr htot
          refine ⟨fun _ => Or.inl htot, ?_, hhits⟩
          intro c hc
          rw [hres] at hc
          exact absurd hc (by simp)

/-- C6: under the claimed preconditions (all dimensions at least 1 and
`1 ≤ dsize ≤ 2^22`), `_calcChunkSize` returns either `None` or a chunk
tuple of the same rank whose entries lie between 1 and the corresponding
shape entry and whose total byte size is at most 4 MiB; the final
chunk-everything branch is unreachable (the instrumented recursion never
reaches it). -/
theorem calcChunkSize_C6 (shape : List Nat) (dsize : Nat)
    (hsh : ∀ x ∈ shape, 1 ≤ x) (hd1 : 1 ≤ dsize) (hdM : dsize ≤ maxChunkSz) :
    (_calcChunkSize shape dsize = none ∨
      ∃ c, _calcChunkSize shape dsize = some c ∧ c.length = shape.length ∧
        List.Forall₂ (fun ci si => 1 ≤ ci ∧ ci ≤ si) c shape ∧
        dsize * c.prod ≤ maxChunkSz) ∧
    _calcChunkHitsFull shape dsize = false := by
  have h := calcChunk_spec shape.length shape dsize (le_refl _) hsh hd1 hdM
  refine ⟨?_, h.2.2⟩
  cases hc : _calcChunkSize shape dsize with
  | none => exact Or.inl rfl
  | some c => exact Or.inr ⟨c, rfl, h.2.1 c hc⟩

/-- Closed witness for C6 at shape (3, 5) and a 4-byte item size. -/
theorem calcChunkSize_C6_witness :
    (_calcChunkSize [3, 5] 4 = none ∨
      ∃ c, _calcChunkSize [3, 5] 4 = some c ∧ c.length = 2 ∧
        List.Forall₂ (fun ci si => 1 ≤ ci ∧ ci ≤ si) c [3, 5] ∧
        4 * c.prod ≤ maxChunkSz) ∧
    _calcChunkHitsFull [3, 5] 4 = false :=
  calcChunkSize_C6 [3, 5] 4 (by decide) (by decide) (by decide)

end NMUtils
